import Mathlib

/-!
Verification of the fungible-token ledger ("stablecoin" module) of the
repository, a shallow embedding of `stablecoin.cpp` / `stablecoin.hpp`.

Modelling conventions:
* EOSIO account names (`eosio::name`) are raw `Nat` values.
* An `eosio::symbol` is a code (the raw `symbol_code` value, a `Nat`
  packing up to seven A-Z bytes) plus a decimal precision; `symbol`
  equality compares both.
* An `eosio::asset` amount is an `int64_t`; it is modelled as `Int`
  with the explicit eosio bound `max_amount = 2^62 - 1` checked exactly
  where the C++ `asset` operators check it (overflow aborts, never wraps).
* Each `multi_index` table is a list of rows; `find`/`get` scan for the
  first row whose primary key matches, `emplace` appends at the end,
  `modify`/`erase` rewrite or drop the first matching row.  Reachable
  states keep primary keys unique, so first-match semantics coincides
  with the real unique-key table.
* `eosio_assert(cond, msg)` aborts the whole transaction when `cond` is
  false; every action therefore returns `Except String State`, where
  `Except.error msg` is an aborted (fully rolled back) transaction and
  `Except.ok st` the committed new state.  An inline action
  (`SEND_INLINE_ACTION` in `issue`) runs inside the same transaction, so
  it is sequenced monadically: its failure aborts the outer action too.
* `require_auth(n)` is modelled by membership of `n` in the set of
  authorising accounts of the call (`Env.auths`); `is_account` by
  membership in the chain's account list (`Env.chain_accounts`);
  `require_recipient` (a pure notification) and RAM-payer bookkeeping
  have no effect on ledger state and are not modelled.
-/

/-- An eosio symbol: raw symbol-code value plus decimal precision. -/
structure Symb where
  code : Nat
  precision : Nat
deriving DecidableEq, Repr

/-- The seven bytes of a raw symbol-code value, least significant first. -/
def symBytes (v : Nat) : List Nat :=
  (List.range 7).map (fun i => v / 256 ^ i % 256)

/-- Tail of the `symbol_code::is_valid` scan: once a zero byte is met,
all remaining bytes must be zero; otherwise each byte must be A-Z. -/
def symTailValid : List Nat → Bool
  | [] => true
  | b :: rest =>
    if 65 ≤ b ∧ b ≤ 90 then symTailValid rest
    else b = 0 && rest.all (fun x => x == 0)

/-- The eosio `symbol_code::is_valid()` check: the first byte must be a
capital letter, subsequent bytes are capital letters until a zero byte,
after which every byte must be zero. -/
def sym_code_is_valid (v : Nat) : Bool :=
  match symBytes v with
  | [] => true
  | b :: rest => (decide (65 ≤ b ∧ b ≤ 90)) && symTailValid rest

/-- The eosio `symbol::is_valid()` check (only the code is constrained). -/
def sym_is_valid (s : Symb) : Bool :=
  sym_code_is_valid s.code

/-- The eosio `asset::max_amount = (1LL << 62) - 1`. -/
def max_amount : Int := 2 ^ 62 - 1

/-- An eosio asset: an amount with a symbol. -/
structure Asset where
  amount : Int
  sym : Symb
deriving DecidableEq, Repr

/-- The eosio `asset::is_valid()`: amount within `±max_amount` and a
valid symbol. -/
def asset_is_valid (a : Asset) : Bool :=
  (decide (-max_amount ≤ a.amount) && decide (a.amount ≤ max_amount))
    && sym_is_valid a.sym

/-- The eosio `asset::operator+=`: requires equal symbols and aborts on
overflow past `±max_amount`. -/
def asset_add (a b : Asset) : Except String Asset :=
  if a.sym ≠ b.sym then .error "attempt to add asset with different symbol"
  else if a.amount + b.amount < -max_amount then .error "addition underflow"
  else if max_amount < a.amount + b.amount then .error "addition overflow"
  else .ok ⟨a.amount + b.amount, a.sym⟩

/-- The eosio `asset::operator-=`: requires equal symbols and aborts on
overflow past `±max_amount`. -/
def asset_sub (a b : Asset) : Except String Asset :=
  if a.sym ≠ b.sym then .error "attempt to subtract asset with different symbol"
  else if a.amount - b.amount < -max_amount then .error "subtraction underflow"
  else if max_amount < a.amount - b.amount then .error "subtraction overflow"
  else .ok ⟨a.amount - b.amount, a.sym⟩

/-- The eosio `asset::operator>`: requires equal symbols, compares amounts. -/
def asset_gt (a b : Asset) : Except String Bool :=
  if a.sym ≠ b.sym then .error "comparison of assets with different symbols"
  else .ok (decide (b.amount < a.amount))

/-- A row of the `accounts` table (`TABLE account`), tagged with the
scope (owner) it lives under; primary key is `balance.symbol.code().raw()`
within that scope. -/
structure BalRow where
  owner : Nat
  balance : Asset
deriving DecidableEq, Repr

/-- A row of the `stat` table (`TABLE currency_stats`); primary key is
`supply.symbol.code().raw()`. -/
structure StatRow where
  supply : Asset
  max_supply : Asset
  issuer : Nat
deriving DecidableEq, Repr

/-- A row of the `pausetable` table (`TABLE pause_table`). -/
structure PauseRow where
  id : Nat
  paused : Bool
deriving DecidableEq, Repr

/-- The whole persistent state of the contract: every `multi_index`
table, each as a list of rows. -/
structure State where
  accounts : List BalRow
  stats : List StatRow
  blacklist : List Nat
  pauserows : List PauseRow
deriving DecidableEq, Repr

/-- The empty state of a freshly deployed contract. -/
def initState : State := ⟨[], [], [], []⟩

/-- The execution environment of one action: the contract's own account
(`_self`), the accounts that authorised the call (`require_auth` /
`has_auth` succeed exactly on these), and the accounts that exist on
chain (`is_account`). -/
structure Env where
  self : Nat
  auths : List Nat
  chain_accounts : List Nat
deriving DecidableEq, Repr

/-- Lookup in the `accounts` table: first row with the given owner
(scope) and symbol-code (primary key). -/
def findBal : List BalRow → Nat → Nat → Option BalRow
  | [], _, _ => none
  | r :: rest, o, c =>
    if r.owner = o ∧ r.balance.sym.code = c then some r else findBal rest o c

/-- Lookup in the `stat` table: first row with the given symbol code. -/
def find_stat : List StatRow → Nat → Option StatRow
  | [], _ => none
  | s :: rest, c => if s.supply.sym.code = c then some s else find_stat rest c

/-- Replace the first `stat` row with the given symbol code
(`statstable.modify`). -/
def replace_stat : List StatRow → Nat → StatRow → List StatRow
  | [], _, _ => []
  | s :: rest, c, s' =>
    if s.supply.sym.code = c then s' :: rest else s :: replace_stat rest c s'

/-- Lookup of the singleton row `1` in `pausetable`. -/
def find_pause : List PauseRow → Option PauseRow
  | [] => none
  | p :: rest => if p.id = 1 then some p else find_pause rest

/-- Set `paused := true` on the first row with id `1` (`pauset.modify`). -/
def modify_pause : List PauseRow → List PauseRow
  | [] => []
  | p :: rest => if p.id = 1 then ⟨p.id, true⟩ :: rest else p :: modify_pause rest

/-- The contract's `stablecoin::is_paused()`: literally
`pauset.find(1) == pauset.end()`, i.e. `true` exactly when NO pause row
exists.  (Note the inversion: the function's own documentation says it
checks whether the contract IS paused.) -/
def is_paused (st : State) : Bool :=
  (find_pause st.pauserows).isNone

/-- The contract's `stablecoin::sub_balance(owner, value)`, acting on the
`accounts` table: find the row keyed by `value`'s symbol code in `owner`'s
scope (abort "no balance object found" if absent), abort "overdrawn
balance" if its balance is below `value`, erase the row when the amounts
are exactly equal, otherwise subtract in place via `asset::operator-=`. -/
def sub_balance : List BalRow → Nat → Asset → Except String (List BalRow)
  | [], _, _ => .error "no balance object found"
  | r :: rest, o, v =>
    if r.owner = o ∧ r.balance.sym.code = v.sym.code then
      if r.balance.amount < v.amount then .error "overdrawn balance"
      else if r.balance.amount = v.amount then .ok rest
      else
        match asset_sub r.balance v with
        | .error e => .error e
        | .ok b => .ok (⟨r.owner, b⟩ :: rest)
    else
      match sub_balance rest o v with
      | .error e => .error e
      | .ok rest' => .ok (r :: rest')

/-- The contract's `stablecoin::add_balance(owner, value, ram_payer)`:
emplace a fresh row holding `value` when none exists for the key,
otherwise add in place via `asset::operator+=`.  The RAM payer only
affects storage billing, not ledger state. -/
def add_balance : List BalRow → Nat → Asset → Except String (List BalRow)
  | [], o, v => .ok [⟨o, v⟩]
  | r :: rest, o, v =>
    if r.owner = o ∧ r.balance.sym.code = v.sym.code then
      match asset_add r.balance v with
      | .error e => .error e
      | .ok b => .ok (⟨r.owner, b⟩ :: rest)
    else
      match add_balance rest o v with
      | .error e => .error e
      | .ok rest' => .ok (r :: rest')

/-- ACTION `stablecoin::create(issuer, maximum_supply)`: only the
contract account may create; validates symbol and supply, requires a
positive maximum supply and a fresh symbol, then emplaces a descriptor
with supply 0 (same symbol as `maximum_supply`). -/
def create (env : Env) (st : State) (issuer : Nat) (maximum_supply : Asset) :
    Except String State :=
  if env.self ∈ env.auths then
    if sym_is_valid maximum_supply.sym then
      if asset_is_valid maximum_supply then
        if 0 < maximum_supply.amount then
          match find_stat st.stats maximum_supply.sym.code with
          | some _ => .error "token with symbol already exists"
          | none =>
              .ok { st with stats :=
                st.stats ++ [⟨⟨0, maximum_supply.sym⟩, maximum_supply, issuer⟩] }
        else .error "max-supply must be positive"
      else .error "invalid supply"
    else .error "invalid symbol name"
  else .error "missing required authority"

/-- ACTION `stablecoin::transfer(from, to, quantity, memo)`: asserts
`is_paused()` (which, by the inversion in `is_paused`, aborts with
"contract is paused." exactly when a pause row exists), then checks the
blacklist for both parties, forbids self transfer, requires `from`'s
authority, requires `to` to exist, looks the token up (the unqualified
`multi_index::get` aborts with "unable to find key"), validates the
quantity, and finally debits `from` and credits `to`. -/
def transfer (env : Env) (st : State) (frm toAcc : Nat) (quantity : Asset)
    (memo : String) : Except String State :=
  if is_paused st then
    if frm ∈ st.blacklist then .error "account blacklisted(from)"
    else if toAcc ∈ st.blacklist then .error "account blacklisted(to)"
    else if frm = toAcc then .error "cannot transfer to self"
    else if frm ∈ env.auths then
      if toAcc ∈ env.chain_accounts then
        match find_stat st.stats quantity.sym.code with
        | none => .error "unable to find key"
        | some stt =>
          if asset_is_valid quantity then
            if 0 < quantity.amount then
              if quantity.sym = stt.supply.sym then
                if memo.length ≤ 256 then
                  match sub_balance st.accounts frm quantity with
                  | .error e => .error e
                  | .ok acnts =>
                    match add_balance acnts toAcc quantity with
                    | .error e => .error e
                    | .ok acnts' => .ok { st with accounts := acnts' }
                else .error "memo has more than 256 bytes"
              else .error "symbol precision mismatch"
            else .error "must transfer positive quantity"
          else .error "invalid quantity"
      else .error "to account does not exist"
    else .error "missing required authority"
  else .error "contract is paused."

/-- ACTION `stablecoin::issue(to, quantity, memo)`: validates symbol and
memo, requires the token to exist and the issuer's authority, checks the
quantity, raises `supply` (and `max_supply` up to it when exceeded),
credits the issuer, and — when `to` is not the issuer — sends the inline
`transfer` from the issuer to `to` (authorised by the issuer), which runs
in the same transaction. -/
def issue (env : Env) (st : State) (toAcc : Nat) (quantity : Asset)
    (memo : String) : Except String State :=
  if sym_is_valid quantity.sym then
    if memo.length ≤ 256 then
      match find_stat st.stats quantity.sym.code with
      | none => .error "token with symbol does not exist, create token before issue"
      | some stt =>
        if stt.issuer ∈ env.auths then
          if asset_is_valid quantity then
            if 0 < quantity.amount then
              if quantity.sym = stt.supply.sym then
                match asset_add stt.supply quantity with
                | .error e => .error e
                | .ok supply' =>
                  match asset_gt supply' stt.max_supply with
                  | .error e => .error e
                  | .ok over =>
                    match add_balance st.accounts stt.issuer quantity with
                    | .error e => .error e
                    | .ok acnts =>
                      let st₁ : State :=
                        { st with
                          stats := replace_stat st.stats quantity.sym.code
                            ⟨supply', if over then supply' else stt.max_supply,
                              stt.issuer⟩,
                          accounts := acnts }
                      if toAcc = stt.issuer then .ok st₁
                      else
                        transfer { env with auths := [stt.issuer] } st₁
                          stt.issuer toAcc quantity memo
              else .error "symbol precision mismatch"
            else .error "must issue positive quantity"
          else .error "invalid quantity"
        else .error "missing required authority"
      else .error "memo has more than 256 bytes"
  else .error "invalid symbol name"

/-- ACTION `stablecoin::burn(quantity, memo)`: validates symbol and memo,
requires the token to exist and the issuer's authority, checks the
quantity against the available supply, decreases `supply` and
`max_supply` by the quantity, and debits the issuer.  There is no pause
or blacklist check anywhere in it. -/
def burn (env : Env) (st : State) (quantity : Asset) (memo : String) :
    Except String State :=
  if sym_is_valid quantity.sym then
    if memo.length ≤ 256 then
      match find_stat st.stats quantity.sym.code with
      | none => .error "token with symbol does not exist, create token before burn"
      | some stt =>
        if stt.issuer ∈ env.auths then
          if asset_is_valid quantity then
            if 0 < quantity.amount then
              if quantity.sym = stt.supply.sym then
                if quantity.amount ≤ stt.supply.amount then
                  match asset_sub stt.supply quantity with
                  | .error e => .error e
                  | .ok supply' =>
                    match asset_sub stt.max_supply quantity with
                    | .error e => .error e
                    | .ok max' =>
                      match sub_balance st.accounts stt.issuer quantity with
                      | .error e => .error e
                      | .ok acnts =>
                        .ok { st with
                          stats := replace_stat st.stats quantity.sym.code
                            ⟨supply', max', stt.issuer⟩,
                          accounts := acnts }
                else .error "quantity exceeds available supply"
              else .error "symbol precision mismatch"
            else .error "must burn positive or zero quantity"
          else .error "invalid quantity"
        else .error "missing required authority"
      else .error "memo has more than 256 bytes"
  else .error "invalid symbol name"

/-- ACTION `stablecoin::pause()`: only the contract account; sets
`paused := true` on row 1 of `pausetable`, emplacing it if missing. -/
def pause (env : Env) (st : State) : Except String State :=
  if env.self ∈ env.auths then
    match find_pause st.pauserows with
    | some _ => .ok { st with pauserows := modify_pause st.pauserows }
    | none => .ok { st with pauserows := st.pauserows ++ [⟨1, true⟩] }
  else .error "missing required authority"

/-- ACTION `stablecoin::unpause()`: only the contract account; the while
loop erases rows from the back until `pausetable` is empty. -/
def unpause (env : Env) (st : State) : Except String State :=
  if env.self ∈ env.auths then .ok { st with pauserows := [] }
  else .error "missing required authority"

/-- ACTION `stablecoin::blacklist(account, memo)`: only the contract
account; the account must not already be blacklisted. -/
def blacklist (env : Env) (st : State) (account : Nat) (memo : String) :
    Except String State :=
  if env.self ∈ env.auths then
    if memo.length ≤ 256 then
      if account ∈ st.blacklist then .error "blacklist account already exists"
      else .ok { st with blacklist := st.blacklist ++ [account] }
    else .error "memo has more than 256 bytes"
  else .error "missing required authority"

/-- ACTION `stablecoin::unblacklist(account)`: only the contract account;
the account must be blacklisted; erases its row. -/
def unblacklist (env : Env) (st : State) (account : Nat) :
    Except String State :=
  if env.self ∈ env.auths then
    if account ∈ st.blacklist then
      .ok { st with blacklist := st.blacklist.erase account }
    else .error "blacklist account not exists"
  else .error "missing required authority"

/-- The static query `stablecoin::get_balance(owner, sym)`: an
unqualified `multi_index::get`, which aborts with "unable to find key"
when no balance row exists. -/
def get_balance (acnts : List BalRow) (owner : Nat) (c : Nat) :
    Except String Asset :=
  match findBal acnts owner c with
  | some r => .ok r.balance
  | none => .error "unable to find key"

/-- The static query `stablecoin::get_supply(sym)`: an unqualified
`multi_index::get` on the `stat` table. -/
def get_supply (stats : List StatRow) (c : Nat) : Except String Asset :=
  match find_stat stats c with
  | some s => .ok s.supply
  | none => .error "unable to find key"

/-- The states reachable from a fresh deployment by committed actions
of the contract, under arbitrary environments sharing the contract
account `self`. -/
inductive Reachable (self : Nat) : State → Prop where
  | init : Reachable self initState
  | step_create : ∀ {st st'} (auths accts : List Nat) (issuer : Nat)
      (maxs : Asset), Reachable self st →
      create ⟨self, auths, accts⟩ st issuer maxs = .ok st' →
      Reachable self st'
  | step_issue : ∀ {st st'} (auths accts : List Nat) (toAcc : Nat)
      (quantity : Asset) (memo : String), Reachable self st →
      issue ⟨self, auths, accts⟩ st toAcc quantity memo = .ok st' →
      Reachable self st'
  | step_transfer : ∀ {st st'} (auths accts : List Nat) (frm toAcc : Nat)
      (quantity : Asset) (memo : String), Reachable self st →
      transfer ⟨self, auths, accts⟩ st frm toAcc quantity memo = .ok st' →
      Reachable self st'
  | step_burn : ∀ {st st'} (auths accts : List Nat) (quantity : Asset)
      (memo : String), Reachable self st →
      burn ⟨self, auths, accts⟩ st quantity memo = .ok st' →
      Reachable self st'
  | step_pause : ∀ {st st'} (auths accts : List Nat), Reachable self st →
      pause ⟨self, auths, accts⟩ st = .ok st' → Reachable self st'
  | step_unpause : ∀ {st st'} (auths accts : List Nat), Reachable self st →
      unpause ⟨self, auths, accts⟩ st = .ok st' → Reachable self st'
  | step_blacklist : ∀ {st st'} (auths accts : List Nat) (account : Nat)
      (memo : String), Reachable self st →
      blacklist ⟨self, auths, accts⟩ st account memo = .ok st' →
      Reachable self st'
  | step_unblacklist : ∀ {st st'} (auths accts : List Nat) (account : Nat),
      Reachable self st →
      unblacklist ⟨self, auths, accts⟩ st account = .ok st' →
      Reachable self st'

/-- Sum of the balances of all Balance Rows carrying a given symbol code. -/
def sumBal : List BalRow → Nat → Int
  | [], _ => 0
  | r :: rest, c =>
    (if r.balance.sym.code = c then r.balance.amount else 0) + sumBal rest c

/-- The supply recorded for a symbol code: the `stat` row's supply
amount, or 0 when no Token Descriptor exists. -/
def supplyAmt (stats : List StatRow) (c : Nat) : Int :=
  match find_stat stats c with
  | some s => s.supply.amount
  | none => 0

/-- Primary keys of the `stat` table. -/
def statKeys (l : List StatRow) : List Nat := l.map (fun s => s.supply.sym.code)

/-- Primary keys (scope paired with key) of the `accounts` table. -/
def balKeys (l : List BalRow) : List (Nat × Nat) :=
  l.map (fun r => (r.owner, r.balance.sym.code))

/-- A state with only its pause table replaced (used to state that an
action ignores the pause flag). -/
def setPause (st : State) (p : List PauseRow) : State := { st with pauserows := p }

/-- A state with its pause table and blacklist replaced (used to state
that an action ignores the whole access-control overlay). -/
def setGates (st : State) (p : List PauseRow) (bl : List Nat) : State :=
  { st with pauserows := p, blacklist := bl }

/-! ### Concrete fixtures for witnesses and counterexamples -/

/-- The symbol "ABC" (raw symbol-code 65 + 66*256 + 67*65536) with
precision 4. -/
def symABC : Symb := ⟨4407873, 4⟩

/-- An amount of the "ABC" token. -/
def qtyABC (n : Int) : Asset := ⟨n, symABC⟩

/-- Environment: the contract account 1 authorises the call. -/
def envSelf : Env := ⟨1, [1], [1, 2, 3]⟩

/-- Environment: the issuer account 2 authorises the call. -/
def envIssuer : Env := ⟨1, [2], [1, 2, 3]⟩

/-- Environment: nobody authorises the call. -/
def envNoAuth : Env := ⟨1, [], [1, 2, 3]⟩

/-- State after `create(2, 1000 ABC)` from a fresh deployment. -/
def stA : State := ⟨[], [⟨⟨0, symABC⟩, qtyABC 1000, 2⟩], [], []⟩

/-- State after additionally `issue(2, 100 ABC)` (to the issuer itself). -/
def stB : State :=
  ⟨[⟨2, qtyABC 100⟩], [⟨⟨100, symABC⟩, qtyABC 1000, 2⟩], [], []⟩

/-- The state `stB` after `pause()`. -/
def stP : State :=
  ⟨[⟨2, qtyABC 100⟩], [⟨⟨100, symABC⟩, qtyABC 1000, 2⟩], [], [⟨1, true⟩]⟩

/-- The state `stB` after `issue(3, 5 ABC)` (includes the inline transfer). -/
def stI3 : State :=
  ⟨[⟨2, qtyABC 100⟩, ⟨3, qtyABC 5⟩], [⟨⟨105, symABC⟩, qtyABC 1000, 2⟩], [], []⟩

/-- The state `stB` after `transfer(2, 3, 40 ABC)`. -/
def stT : State :=
  ⟨[⟨2, qtyABC 60⟩, ⟨3, qtyABC 40⟩], [⟨⟨100, symABC⟩, qtyABC 1000, 2⟩], [], []⟩

/-- A ledger where account 2 holds 100 ABC and account 3 already holds
60 ABC (supply 160). -/
def stC7 : State :=
  ⟨[⟨2, qtyABC 100⟩, ⟨3, qtyABC 60⟩], [⟨⟨160, symABC⟩, qtyABC 1000, 2⟩],
    [], []⟩

/-- The state `stC7` after `transfer(2, 3, 40 ABC)`: account 3 ends at
100 ABC, not 40. -/
def stC7' : State :=
  ⟨[⟨2, qtyABC 60⟩, ⟨3, qtyABC 100⟩], [⟨⟨160, symABC⟩, qtyABC 1000, 2⟩],
    [], []⟩

/-- A ledger whose Supply Registry records supply 100 ABC but whose
Balance Store holds no row at all (used to exercise the burn failure
when the issuer has no balance object). -/
def stNB : State := ⟨[], [⟨⟨100, symABC⟩, qtyABC 1000, 2⟩], [], []⟩

/-! ### Basic facts about the asset operators -/

theorem asset_add_ok {a b c : Asset} (h : asset_add a b = .ok c) :
    c.amount = a.amount + b.amount ∧ c.sym = a.sym ∧ a.sym = b.sym := by
  unfold asset_add at h
  split at h
  · simp at h
  · rename_i hsym
    split at h
    · simp at h
    · split at h
      · simp at h
      · cases h
        exact ⟨rfl, rfl, not_not.mp hsym⟩

theorem asset_sub_ok {a b c : Asset} (h : asset_sub a b = .ok c) :
    c.amount = a.amount - b.amount ∧ c.sym = a.sym ∧ a.sym = b.sym := by
  unfold asset_sub at h
  split at h
  · simp at h
  · rename_i hsym
    split at h
    · simp at h
    · split at h
      · simp at h
      · cases h
        exact ⟨rfl, rfl, not_not.mp hsym⟩

theorem asset_gt_ok {a b : Asset} {r : Bool} (h : asset_gt a b = .ok r) :
    a.sym = b.sym ∧ r = decide (b.amount < a.amount) := by
  unfold asset_gt at h
  split at h
  · simp at h
  · rename_i hsym
    cases h
    exact ⟨not_not.mp hsym, rfl⟩

theorem asset_sub_ok_of_bounds {a b : Asset} (hsym : a.sym = b.sym)
    (h₁ : -max_amount ≤ a.amount - b.amount)
    (h₂ : a.amount - b.amount ≤ max_amount) :
    asset_sub a b = .ok ⟨a.amount - b.amount, a.sym⟩ := by
  unfold asset_sub
  rw [if_neg (by simp [hsym]), if_neg (by omega), if_neg (by omega)]

/-! ### Effect of `add_balance` on the table -/

theorem add_balance_sum {l : List BalRow} {o : Nat} {v : Asset} {l' : List BalRow}
    (h : add_balance l o v = .ok l') (c : Nat) :
    sumBal l' c = sumBal l c + (if v.sym.code = c then v.amount else 0) := by
  induction l generalizing l' with
  | nil =>
    simp only [add_balance] at h
    cases h
    simp [sumBal]
  | cons r rest ih =>
    simp only [add_balance] at h
    split at h
    · rename_i hk
      cases hadd : asset_add r.balance v with
      | error e => rw [hadd] at h; simp at h
      | ok b =>
        rw [hadd] at h
        cases h
        obtain ⟨hamt, hsym, _⟩ := asset_add_ok hadd
        simp only [sumBal, hamt, hsym, hk.2]
        by_cases hc : v.sym.code = c <;> simp [hc] <;> ring
    · rename_i hk
      cases hrec : add_balance rest o v with
      | error e => rw [hrec] at h; simp at h
      | ok rest' =>
        rw [hrec] at h
        cases h
        simp only [sumBal, ih hrec]
        ring

theorem add_balance_pos {l : List BalRow} {o : Nat} {v : Asset} {l' : List BalRow}
    (h : add_balance l o v = .ok l') (hv : 0 < v.amount)
    (hl : ∀ r ∈ l, 0 < r.balance.amount) :
    ∀ r ∈ l', 0 < r.balance.amount := by
  induction l generalizing l' with
  | nil =>
    simp only [add_balance] at h
    cases h
    intro r hr
    simp at hr
    simp [hr, hv]
  | cons hd rest ih =>
    simp only [add_balance] at h
    split at h
    · cases hadd : asset_add hd.balance v with
      | error e => rw [hadd] at h; simp at h
      | ok b =>
        rw [hadd] at h
        cases h
        obtain ⟨hamt, _, _⟩ := asset_add_ok hadd
        intro x hx
        rcases List.mem_cons.mp hx with hx | hx
        · subst hx
          have := hl hd (by simp)
          simp only [hamt]
          omega
        · exact hl x (List.mem_cons_of_mem _ hx)
    · cases hrec : add_balance rest o v with
      | error e => rw [hrec] at h; simp at h
      | ok rest' =>
        rw [hrec] at h
        cases h
        intro x hx
        rcases List.mem_cons.mp hx with hx | hx
        · subst hx; exact hl _ (List.mem_cons_self _ _)
        · exact ih hrec (fun y hy => hl y (List.mem_cons_of_mem _ hy)) x hx

theorem nodup_append_single {α : Type} {l : List α} {a : α}
    (hl : l.Nodup) (ha : a ∉ l) : (l ++ [a]).Nodup := by
  induction l with
  | nil => simp
  | cons x xs ih =>
    rcases List.nodup_cons.mp hl with ⟨hx, hxs⟩
    refine List.nodup_cons.mpr ⟨?_, ih hxs (fun hm => ha (List.mem_cons_of_mem _ hm))⟩
    intro hmem
    rcases List.mem_append.mp hmem with hmem | hmem
    · exact hx hmem
    · simp at hmem
      exact ha (by simp [hmem])

theorem add_balance_keys {l : List BalRow} {o : Nat} {v : Asset} {l' : List BalRow}
    (h : add_balance l o v = .ok l') :
    balKeys l' = balKeys l ∨
      (balKeys l' = balKeys l ++ [(o, v.sym.code)] ∧ (o, v.sym.code) ∉ balKeys l) := by
  induction l generalizing l' with
  | nil =>
    simp only [add_balance] at h
    cases h
    right
    simp [balKeys]
  | cons hd rest ih =>
    simp only [add_balance] at h
    split at h
    · rename_i hk
      cases hadd : asset_add hd.balance v with
      | error e => rw [hadd] at h; simp at h
      | ok b =>
        rw [hadd] at h
        cases h
        left
        obtain ⟨_, hsym, _⟩ := asset_add_ok hadd
        simp [balKeys, hsym, hk.2]
    · rename_i hk
      cases hrec : add_balance rest o v with
      | error e => rw [hrec] at h; simp at h
      | ok rest' =>
        rw [hrec] at h
        cases h
        rcases ih hrec with hkeys | ⟨hkeys, hmem⟩
        · left; simp [balKeys] at hkeys ⊢; exact hkeys
        · right
          constructor
          · simp [balKeys] at hkeys ⊢; exact hkeys
          · simp only [balKeys, List.map_cons, List.mem_cons]
            rintro (hke | hke)
            · exact hk ⟨(Prod.ext_iff.mp hke).1.symm, (Prod.ext_iff.mp hke).2.symm⟩
            · exact hmem hke

theorem add_balance_nodup {l : List BalRow} {o : Nat} {v : Asset} {l' : List BalRow}
    (h : add_balance l o v = .ok l') (hl : (balKeys l).Nodup) :
    (balKeys l').Nodup := by
  rcases add_balance_keys h with hk | ⟨hk, hm⟩
  · rw [hk]; exact hl
  · rw [hk]; exact nodup_append_single hl hm

theorem add_balance_find_absent {l : List BalRow} {o : Nat} {v : Asset}
    {l' : List BalRow} (h : add_balance l o v = .ok l')
    (habs : findBal l o v.sym.code = none) :
    findBal l' o v.sym.code = some ⟨o, v⟩ := by
  induction l generalizing l' with
  | nil =>
    simp only [add_balance] at h
    cases h
    simp [findBal]
  | cons hd rest ih =>
    simp only [add_balance] at h
    simp only [findBal] at habs
    split at h
    · rename_i hk
      rw [if_pos hk] at habs
      simp at habs
    · rename_i hk
      rw [if_neg hk] at habs
      cases hrec : add_balance rest o v with
      | error e => rw [hrec] at h; simp at h
      | ok rest' =>
        rw [hrec] at h
        cases h
        simp only [findBal, if_neg hk]
        exact ih hrec habs

theorem add_balance_find_other {l : List BalRow} {o : Nat} {v : Asset}
    {l' : List BalRow} (h : add_balance l o v = .ok l') {o' c' : Nat}
    (hne : ¬(o' = o ∧ c' = v.sym.code)) :
    findBal l' o' c' = findBal l o' c' := by
  induction l generalizing l' with
  | nil =>
    simp only [add_balance] at h
    cases h
    simp only [findBal]
    rw [if_neg]
    rintro ⟨h1, h2⟩
    exact hne ⟨h1.symm, h2.symm⟩
  | cons hd rest ih =>
    simp only [add_balance] at h
    split at h
    · rename_i hk
      cases hadd : asset_add hd.balance v with
      | error e => rw [hadd] at h; simp at h
      | ok b =>
        rw [hadd] at h
        cases h
        obtain ⟨_, hsym, _⟩ := asset_add_ok hadd
        simp only [findBal, hsym]
        rw [if_neg, if_neg]
        · rintro ⟨h1, h2⟩
          exact hne ⟨hk.1 ▸ h1.symm ▸ rfl, hk.2 ▸ h2.symm ▸ rfl⟩
        · rintro ⟨h1, h2⟩
          exact hne ⟨hk.1 ▸ h1.symm ▸ rfl, hk.2 ▸ h2.symm ▸ rfl⟩
    · cases hrec : add_balance rest o v with
      | error e => rw [hrec] at h; simp at h
      | ok rest' =>
        rw [hrec] at h
        cases h
        simp only [findBal]
        split
        · rfl
        · exact ih hrec

/-! ### Effect of `sub_balance` on the table -/

theorem sub_balance_sum {l : List BalRow} {o : Nat} {v : Asset} {l' : List BalRow}
    (h : sub_balance l o v = .ok l') (c : Nat) :
    sumBal l' c = sumBal l c - (if v.sym.code = c then v.amount else 0) := by
  induction l generalizing l' with
  | nil => simp [sub_balance] at h
  | cons hd rest ih =>
    simp only [sub_balance] at h
    split at h
    · rename_i hk
      split at h
      · simp at h
      · split at h
        · rename_i hlt heq
          cases h
          simp only [sumBal, hk.2, heq]
          by_cases hc : v.sym.code = c <;> simp [hc] <;> ring
        · cases hsub : asset_sub hd.balance v with
          | error e => rw [hsub] at h; simp at h
          | ok b =>
            rw [hsub] at h
            cases h
            obtain ⟨hamt, hsym, _⟩ := asset_sub_ok hsub
            simp only [sumBal, hamt, hsym, hk.2]
            by_cases hc : v.sym.code = c <;> simp [hc] <;> ring
    · cases hrec : sub_balance rest o v with
      | error e => rw [hrec] at h; simp at h
      | ok rest' =>
        rw [hrec] at h
        cases h
        simp only [sumBal, ih hrec]
        ring

theorem sub_balance_pos {l : List BalRow} {o : Nat} {v : Asset} {l' : List BalRow}
    (h : sub_balance l o v = .ok l')
    (hl : ∀ r ∈ l, 0 < r.balance.amount) :
    ∀ r ∈ l', 0 < r.balance.amount := by
  induction l generalizing l' with
  | nil => simp [sub_balance] at h
  | cons hd rest ih =>
    simp only [sub_balance] at h
    split at h
    · split at h
      · simp at h
      · split at h
        · cases h
          exact fun r hr => hl r (List.mem_cons_of_mem _ hr)
        · rename_i hlt heq
          cases hsub : asset_sub hd.balance v with
          | error e => rw [hsub] at h; simp at h
          | ok b =>
            rw [hsub] at h
            cases h
            obtain ⟨hamt, _, _⟩ := asset_sub_ok hsub
            intro x hx
            rcases List.mem_cons.mp hx with hx | hx
            · subst hx
              simp only [hamt]
              omega
            · exact hl x (List.mem_cons_of_mem _ hx)
    · cases hrec : sub_balance rest o v with
      | error e => rw [hrec] at h; simp at h
      | ok rest' =>
        rw [hrec] at h
        cases h
        intro x hx
        rcases List.mem_cons.mp hx with hx | hx
        · subst hx; exact hl _ (List.mem_cons_self _ _)
        · exact ih hrec (fun y hy => hl y (List.mem_cons_of_mem _ hy)) x hx

theorem sub_balance_keys {l : List BalRow} {o : Nat} {v : Asset} {l' : List BalRow}
    (h : sub_balance l o v = .ok l') :
    (balKeys l').Sublist (balKeys l) := by
  induction l generalizing l' with
  | nil => simp [sub_balance] at h
  | cons hd rest ih =>
    simp only [sub_balance] at h
    split at h
    · split at h
      · simp at h
      · split at h
        · cases h
          exact List.sublist_cons_of_sublist _ (List.Sublist.refl _)
        · cases hsub : asset_sub hd.balance v with
          | error e => rw [hsub] at h; simp at h
          | ok b =>
            rw [hsub] at h
            cases h
            obtain ⟨_, hsym, _⟩ := asset_sub_ok hsub
            simp only [balKeys, List.map_cons, hsym]
            exact List.Sublist.cons₂ _ (List.Sublist.refl _)
    · cases hrec : sub_balance rest o v with
      | error e => rw [hrec] at h; simp at h
      | ok rest' =>
        rw [hrec] at h
        cases h
        exact List.Sublist.cons₂ _ (ih hrec)

theorem sub_balance_nodup {l : List BalRow} {o : Nat} {v : Asset} {l' : List BalRow}
    (h : sub_balance l o v = .ok l') (hl : (balKeys l).Nodup) :
    (balKeys l').Nodup :=
  (sub_balance_keys h).nodup hl

theorem findBal_mem_keys {l : List BalRow} {o c : Nat} {r : BalRow}
    (h : findBal l o c = some r) : (o, c) ∈ balKeys l := by
  induction l with
  | nil => simp [findBal] at h
  | cons hd rest ih =>
    simp only [findBal] at h
    split at h
    · rename_i hk
      simp [balKeys, hk.1, hk.2]
    · simp only [balKeys, List.map_cons, List.mem_cons]
      exact Or.inr (ih h)

theorem findBal_none_keys {l : List BalRow} {o c : Nat}
    (h : (o, c) ∉ balKeys l) : findBal l o c = none := by
  induction l with
  | nil => simp [findBal]
  | cons hd rest ih =>
    simp only [balKeys, List.map_cons, List.mem_cons] at h
    push_neg at h
    simp only [findBal]
    rw [if_neg]
    · exact ih h.2
    · rintro ⟨h1, h2⟩
      exact h.1 (by rw [h1, h2])

theorem sub_balance_absent {l : List BalRow} {o : Nat} {v : Asset}
    (h : findBal l o v.sym.code = none) :
    sub_balance l o v = .error "no balance object found" := by
  induction l with
  | nil => simp [sub_balance]
  | cons hd rest ih =>
    simp only [findBal] at h
    simp only [sub_balance]
    split at h
    · simp at h
    · rename_i hk
      rw [if_neg hk, ih h]

theorem sub_balance_overdrawn {l : List BalRow} {o : Nat} {v : Asset} {r : BalRow}
    (h : findBal l o v.sym.code = some r) (hlt : r.balance.amount < v.amount) :
    sub_balance l o v = .error "overdrawn balance" := by
  induction l with
  | nil => simp [findBal] at h
  | cons hd rest ih =>
    simp only [findBal] at h
    simp only [sub_balance]
    split at h
    · rename_i hk
      cases h
      rw [if_pos hk, if_pos hlt]
    · rename_i hk
      rw [if_neg hk, ih h]

theorem sub_balance_delete {l : List BalRow} {o : Nat} {v : Asset} {r : BalRow}
    (hnd : (balKeys l).Nodup)
    (h : findBal l o v.sym.code = some r) (heq : r.balance.amount = v.amount) :
    ∃ l', sub_balance l o v = .ok l' ∧ findBal l' o v.sym.code = none := by
  induction l with
  | nil => simp [findBal] at h
  | cons hd rest ih =>
    simp only [findBal] at h
    simp only [sub_balance]
    simp only [balKeys, List.map_cons] at hnd
    obtain ⟨hni, hndr⟩ := List.nodup_cons.mp hnd
    split at h
    · rename_i hk
      cases h
      rw [if_pos hk, if_neg (by omega), if_pos heq]
      refine ⟨rest, rfl, ?_⟩
      apply findBal_none_keys
      intro hmem
      simp only [balKeys] at hmem
      rw [← hk.1, ← hk.2] at hmem
      exact hni hmem
    · rename_i hk
      rcases ih hndr h with ⟨l', hl', hfind⟩
      rw [if_neg hk, hl']
      exact ⟨hd :: l', rfl, by simp only [findBal, if_neg hk]; exact hfind⟩

theorem sub_balance_modify {l : List BalRow} {o : Nat} {v : Asset} {r : BalRow}
    {l' : List BalRow}
    (h : sub_balance l o v = .ok l') (hfind : findBal l o v.sym.code = some r)
    (hne : r.balance.amount ≠ v.amount) :
    findBal l' o v.sym.code =
      some ⟨r.owner, ⟨r.balance.amount - v.amount, r.balance.sym⟩⟩ := by
  induction l generalizing l' with
  | nil => simp [sub_balance] at h
  | cons hd rest ih =>
    simp only [sub_balance] at h
    simp only [findBal] at hfind
    split at h
    · rename_i hk
      rw [if_pos hk] at hfind
      cases hfind
      split at h
      · simp at h
      · split at h
        next e heq => simp at h
        next b heq =>
          cases h
          obtain ⟨hamt, hsym, _⟩ := asset_sub_ok heq
          simp only [findBal]
          rw [if_pos ⟨hk.1, by rw [hsym]; exact hk.2⟩]
          congr 1
          cases b
          simp only at hamt hsym
          simp [hamt, hsym]
    · rename_i hk
      rw [if_neg hk] at hfind
      cases hrec : sub_balance rest o v with
      | error e => rw [hrec] at h; simp at h
      | ok rest' =>
        rw [hrec] at h
        cases h
        simp only [findBal, if_neg hk]
        exact ih hrec hfind

theorem sub_balance_find_other {l : List BalRow} {o : Nat} {v : Asset}
    {l' : List BalRow} (h : sub_balance l o v = .ok l') {o' c' : Nat}
    (hne : ¬(o' = o ∧ c' = v.sym.code)) :
    findBal l' o' c' = findBal l o' c' := by
  induction l generalizing l' with
  | nil => simp [sub_balance] at h
  | cons hd rest ih =>
    simp only [sub_balance] at h
    split at h
    · rename_i hk
      split at h
      · simp at h
      · split at h
        next heq =>
          cases h
          simp only [findBal]
          rw [if_neg]
          rintro ⟨h1, h2⟩
          exact hne ⟨hk.1 ▸ h1.symm ▸ rfl, hk.2 ▸ h2.symm ▸ rfl⟩
        next heq =>
          cases hsub : asset_sub hd.balance v with
          | error e => rw [hsub] at h; simp at h
          | ok b =>
            rw [hsub] at h
            cases h
            obtain ⟨_, hsym, _⟩ := asset_sub_ok hsub
            simp only [findBal, hsym]
            rw [if_neg, if_neg]
            · rintro ⟨h1, h2⟩
              exact hne ⟨hk.1 ▸ h1.symm ▸ rfl, hk.2 ▸ h2.symm ▸ rfl⟩
            · rintro ⟨h1, h2⟩
              exact hne ⟨hk.1 ▸ h1.symm ▸ rfl, hk.2 ▸ h2.symm ▸ rfl⟩
    · cases hrec : sub_balance rest o v with
      | error e => rw [hrec] at h; simp at h
      | ok rest' =>
        rw [hrec] at h
        cases h
        simp only [findBal]
        split
        · rfl
        · exact ih hrec

theorem sub_balance_ok_of_cover {l : List BalRow} {o : Nat} {v : Asset} {r : BalRow}
    (hfind : findBal l o v.sym.code = some r)
    (hge : v.amount ≤ r.balance.amount)
    (hsym : r.balance.sym = v.sym)
    (hbound : r.balance.amount ≤ max_amount) (hv : 0 ≤ v.amount) :
    ∃ l', sub_balance l o v = .ok l' := by
  induction l with
  | nil => simp [findBal] at hfind
  | cons hd rest ih =>
    simp only [findBal] at hfind
    simp only [sub_balance]
    split at hfind
    · rename_i hk
      cases hfind
      rw [if_pos hk, if_neg (by omega)]
      by_cases heq : r.balance.amount = v.amount
      · rw [if_pos heq]
        exact ⟨rest, rfl⟩
      · rw [if_neg heq,
          asset_sub_ok_of_bounds hsym (by unfold max_amount; omega) (by omega)]
        exact ⟨_, rfl⟩
    · rename_i hk
      rcases ih hfind with ⟨rest', hrest'⟩
      rw [if_neg hk, hrest']
      exact ⟨_, rfl⟩

/-! ### Facts about the `stat` table operations -/

theorem find_stat_mem {l : List StatRow} {c : Nat} {s : StatRow}
    (h : find_stat l c = some s) : s ∈ l ∧ s.supply.sym.code = c := by
  induction l with
  | nil => simp [find_stat] at h
  | cons hd rest ih =>
    simp only [find_stat] at h
    split at h
    · rename_i hc
      cases h
      exact ⟨List.mem_cons_self _ _, hc⟩
    · rcases ih h with ⟨hmem, hc⟩
      exact ⟨List.mem_cons_of_mem _ hmem, hc⟩

theorem find_stat_append_none {l : List StatRow} {c : Nat} (x : StatRow)
    (h : find_stat l c = none) :
    find_stat (l ++ [x]) c =
      if x.supply.sym.code = c then some x else none := by
  induction l with
  | nil => simp [find_stat]
  | cons hd rest ih =>
    simp only [find_stat] at h ⊢
    split at h
    · simp at h
    · rename_i hc
      simp only [List.cons_append, find_stat, if_neg hc]
      exact ih h

theorem find_stat_append_some {l : List StatRow} {c : Nat} {s : StatRow}
    (x : StatRow) (h : find_stat l c = some s) :
    find_stat (l ++ [x]) c = some s := by
  induction l with
  | nil => simp [find_stat] at h
  | cons hd rest ih =>
    simp only [find_stat] at h
    split at h
    · rename_i hc
      cases h
      simp only [List.cons_append, find_stat, if_pos hc]
    · rename_i hc
      simp only [List.cons_append, find_stat, if_neg hc]
      exact ih h

theorem find_stat_none_keys {l : List StatRow} {c : Nat}
    (h : c ∉ statKeys l) : find_stat l c = none := by
  induction l with
  | nil => simp [find_stat]
  | cons hd rest ih =>
    simp only [statKeys, List.map_cons, List.mem_cons] at h
    push_neg at h
    simp only [find_stat]
    rw [if_neg (fun he => h.1 he.symm)]
    exact ih h.2

theorem find_stat_mem_keys {l : List StatRow} {c : Nat} {s : StatRow}
    (h : find_stat l c = some s) : c ∈ statKeys l := by
  induction l with
  | nil => simp [find_stat] at h
  | cons hd rest ih =>
    simp only [find_stat] at h
    split at h
    · rename_i hc
      simp [statKeys, hc]
    · simp only [statKeys, List.map_cons, List.mem_cons]
      exact Or.inr (ih h)

theorem replace_stat_keys {l : List StatRow} {c : Nat} {s' : StatRow}
    (hs' : s'.supply.sym.code = c) :
    statKeys (replace_stat l c s') = statKeys l := by
  induction l with
  | nil => simp [replace_stat]
  | cons hd rest ih =>
    simp only [replace_stat]
    split
    · rename_i hc
      simp [statKeys, hs', hc]
    · simp only [statKeys, List.map_cons] at ih ⊢
      rw [ih]

theorem replace_stat_mem {l : List StatRow} {c : Nat} {s' : StatRow} {t : StatRow}
    (h : t ∈ replace_stat l c s') : t = s' ∨ t ∈ l := by
  induction l with
  | nil => simp [replace_stat] at h
  | cons hd rest ih =>
    simp only [replace_stat] at h
    split at h
    · rcases List.mem_cons.mp h with h | h
      · exact Or.inl h
      · exact Or.inr (List.mem_cons_of_mem _ h)
    · rcases List.mem_cons.mp h with h | h
      · exact Or.inr (h ▸ List.mem_cons_self _ _)
      · rcases ih h with h | h
        · exact Or.inl h
        · exact Or.inr (List.mem_cons_of_mem _ h)

theorem replace_stat_find_self {l : List StatRow} {c : Nat} {s s' : StatRow}
    (hfound : find_stat l c = some s) (hs' : s'.supply.sym.code = c) :
    find_stat (replace_stat l c s') c = some s' := by
  induction l with
  | nil => simp [find_stat] at hfound
  | cons hd rest ih =>
    simp only [find_stat] at hfound
    simp only [replace_stat]
    split at hfound
    · rename_i hc
      rw [if_pos hc]
      simp [find_stat, hs']
    · rename_i hc
      rw [if_neg hc]
      simp only [find_stat, if_neg hc]
      exact ih hfound

theorem replace_stat_find_other {l : List StatRow} {c : Nat} {s' : StatRow}
    {c' : Nat} (hs' : s'.supply.sym.code = c) (hne : c' ≠ c) :
    find_stat (replace_stat l c s') c' = find_stat l c' := by
  induction l with
  | nil => simp [replace_stat]
  | cons hd rest ih =>
    simp only [replace_stat]
    split
    · rename_i hc
      simp only [find_stat]
      rw [if_neg (fun he : s'.supply.sym.code = c' => hne (hs'.symm.trans he).symm),
        if_neg (fun he : hd.supply.sym.code = c' => hne (hc.symm.trans he).symm)]
    · simp only [find_stat]
      by_cases hcc : hd.supply.sym.code = c'
      · rw [if_pos hcc, if_pos hcc]
      · rw [if_neg hcc, if_neg hcc]
        exact ih

/-! ### Shape of a successful `transfer` -/

theorem transfer_ok {env : Env} {st : State} {frm toAcc : Nat} {quantity : Asset}
    {memo : String} {st' : State}
    (h : transfer env st frm toAcc quantity memo = .ok st') :
    is_paused st = true ∧ frm ∉ st.blacklist ∧ toAcc ∉ st.blacklist ∧
      frm ≠ toAcc ∧ frm ∈ env.auths ∧ toAcc ∈ env.chain_accounts ∧
      0 < quantity.amount ∧
      (∃ stt, find_stat st.stats quantity.sym.code = some stt ∧
        quantity.sym = stt.supply.sym) ∧
      (∃ acnts, sub_balance st.accounts frm quantity = .ok acnts ∧
        add_balance acnts toAcc quantity = .ok st'.accounts) ∧
      st'.stats = st.stats ∧ st'.blacklist = st.blacklist ∧
      st'.pauserows = st.pauserows := by
  unfold transfer at h
  split at h
  case isFalse => simp at h
  case isTrue hp =>
  split at h
  case isTrue => simp at h
  case isFalse hbf =>
  split at h
  case isTrue => simp at h
  case isFalse hbt =>
  split at h
  case isTrue => simp at h
  case isFalse hself =>
  split at h
  case isFalse => simp at h
  case isTrue hauth =>
  split at h
  case isFalse => simp at h
  case isTrue hacct =>
  split at h
  case h_1 => simp at h
  case h_2 stt hstt =>
  split at h
  case isFalse => simp at h
  case isTrue hvalid =>
  split at h
  case isFalse => simp at h
  case isTrue hposq =>
  split at h
  case isFalse => simp at h
  case isTrue hsym =>
  split at h
  case isFalse => simp at h
  case isTrue hmemo =>
  split at h
  case h_1 => simp at h
  case h_2 acnts hsub =>
  split at h
  case h_1 => simp at h
  case h_2 acnts' hadd =>
  cases h
  exact ⟨hp, hbf, hbt, hself, hauth, hacct, hposq, ⟨stt, hstt, hsym⟩,
    ⟨acnts, hsub, hadd⟩, rfl, rfl, rfl⟩

/-! ### Shape of the other successful actions -/

theorem issue_ok {env : Env} {st : State} {toAcc : Nat} {quantity : Asset}
    {memo : String} {st' : State}
    (h : issue env st toAcc quantity memo = .ok st') :
    ∃ stt supply' over acnts,
      find_stat st.stats quantity.sym.code = some stt ∧
      stt.issuer ∈ env.auths ∧ 0 < quantity.amount ∧
      quantity.sym = stt.supply.sym ∧
      asset_add stt.supply quantity = .ok supply' ∧
      asset_gt supply' stt.max_supply = .ok over ∧
      add_balance st.accounts stt.issuer quantity = .ok acnts ∧
      ((toAcc = stt.issuer ∧ st' =
          { st with
            stats := replace_stat st.stats quantity.sym.code
              ⟨supply', if over then supply' else stt.max_supply, stt.issuer⟩,
            accounts := acnts }) ∨
        (toAcc ≠ stt.issuer ∧
          transfer { env with auths := [stt.issuer] }
            { st with
              stats := replace_stat st.stats quantity.sym.code
                ⟨supply', if over then supply' else stt.max_supply, stt.issuer⟩,
              accounts := acnts }
            stt.issuer toAcc quantity memo = .ok st')) := by
  unfold issue at h
  split at h
  case isFalse => simp at h
  case isTrue hsymv =>
  split at h
  case isFalse => simp at h
  case isTrue hmemo =>
  split at h
  case h_1 => simp at h
  case h_2 stt hstt =>
  split at h
  case isFalse => simp at h
  case isTrue hauth =>
  split at h
  case isFalse => simp at h
  case isTrue hvalid =>
  split at h
  case isFalse => simp at h
  case isTrue hposq =>
  split at h
  case isFalse => simp at h
  case isTrue hsym =>
  split at h
  case h_1 => simp at h
  case h_2 supply' haddq =>
  split at h
  case h_1 => simp at h
  case h_2 over hgt =>
  set m : Asset := if over then supply' else stt.max_supply with hm
  split at h
  case h_1 => simp at h
  case h_2 acnts hadd =>
  refine ⟨stt, supply', over, acnts, hstt, hauth, hposq, hsym, haddq, hgt, hadd, ?_⟩
  split at h
  case isTrue hto =>
    cases h
    exact Or.inl ⟨hto, rfl⟩
  case isFalse hto =>
    exact Or.inr ⟨hto, h⟩

theorem burn_ok {env : Env} {st : State} {quantity : Asset} {memo : String}
    {st' : State} (h : burn env st quantity memo = .ok st') :
    ∃ stt supply' max' acnts,
      find_stat st.stats quantity.sym.code = some stt ∧
      stt.issuer ∈ env.auths ∧ 0 < quantity.amount ∧
      quantity.sym = stt.supply.sym ∧ quantity.amount ≤ stt.supply.amount ∧
      asset_sub stt.supply quantity = .ok supply' ∧
      asset_sub stt.max_supply quantity = .ok max' ∧
      sub_balance st.accounts stt.issuer quantity = .ok acnts ∧
      st' = { st with
        stats := replace_stat st.stats quantity.sym.code
          ⟨supply', max', stt.issuer⟩,
        accounts := acnts } := by
  unfold burn at h
  split at h
  case isFalse => simp at h
  case isTrue hsymv =>
  split at h
  case isFalse => simp at h
  case isTrue hmemo =>
  split at h
  case h_1 => simp at h
  case h_2 stt hstt =>
  split at h
  case isFalse => simp at h
  case isTrue hauth =>
  split at h
  case isFalse => simp at h
  case isTrue hvalid =>
  split at h
  case isFalse => simp at h
  case isTrue hposq =>
  split at h
  case isFalse => simp at h
  case isTrue hsym =>
  split at h
  case isFalse => simp at h
  case isTrue hle =>
  split at h
  case h_1 => simp at h
  case h_2 supply' hsubq =>
  split at h
  case h_1 => simp at h
  case h_2 max' hsubm =>
  split at h
  case h_1 => simp at h
  case h_2 acnts hsub =>
  cases h
  exact ⟨stt, supply', max', acnts, hstt, hauth, hposq, hsym, hle, hsubq,
    hsubm, hsub, rfl⟩

theorem create_ok {env : Env} {st : State} {issuer : Nat}
    {maximum_supply : Asset} {st' : State}
    (h : create env st issuer maximum_supply = .ok st') :
    find_stat st.stats maximum_supply.sym.code = none ∧
      0 < maximum_supply.amount ∧
      st' = { st with stats := st.stats ++
        [⟨⟨0, maximum_supply.sym⟩, maximum_supply, issuer⟩] } := by
  unfold create at h
  split at h
  case isFalse => simp at h
  case isTrue hauth =>
  split at h
  case isFalse => simp at h
  case isTrue hsymv =>
  split at h
  case isFalse => simp at h
  case isTrue hvalid =>
  split at h
  case isFalse => simp at h
  case isTrue hpos =>
  split at h
  case h_1 => simp at h
  case h_2 hstt =>
  cases h
  exact ⟨hstt, hpos, rfl⟩

theorem pause_ok {env : Env} {st : State} {st' : State}
    (h : pause env st = .ok st') :
    st'.accounts = st.accounts ∧ st'.stats = st.stats ∧
      st'.blacklist = st.blacklist := by
  unfold pause at h
  split at h
  case isFalse => simp at h
  case isTrue =>
  split at h <;> (cases h; exact ⟨rfl, rfl, rfl⟩)

theorem unpause_ok {env : Env} {st : State} {st' : State}
    (h : unpause env st = .ok st') :
    st' = { st with pauserows := [] } := by
  unfold unpause at h
  split at h
  · cases h; rfl
  · simp at h

theorem blacklist_ok {env : Env} {st : State} {account : Nat} {memo : String}
    {st' : State} (h : blacklist env st account memo = .ok st') :
    st'.accounts = st.accounts ∧ st'.stats = st.stats ∧
      st'.pauserows = st.pauserows := by
  unfold blacklist at h
  split at h
  case isFalse => simp at h
  case isTrue =>
  split at h
  case isFalse => simp at h
  case isTrue =>
  split at h
  case isTrue => simp at h
  case isFalse =>
  cases h
  exact ⟨rfl, rfl, rfl⟩

theorem unblacklist_ok {env : Env} {st : State} {account : Nat}
    {st' : State} (h : unblacklist env st account = .ok st') :
    st'.accounts = st.accounts ∧ st'.stats = st.stats ∧
      st'.pauserows = st.pauserows := by
  unfold unblacklist at h
  split at h
  case isFalse => simp at h
  case isTrue =>
  split at h
  case isFalse => simp at h
  case isTrue =>
  cases h
  exact ⟨rfl, rfl, rfl⟩

/-! ### The ledger invariant -/

theorem find_stat_none_not_mem {l : List StatRow} {c : Nat}
    (h : find_stat l c = none) : c ∉ statKeys l := by
  intro hmem
  induction l with
  | nil => simp [statKeys] at hmem
  | cons hd rest ih =>
    simp only [find_stat] at h
    split at h
    · simp at h
    · rename_i hc
      simp only [statKeys, List.map_cons, List.mem_cons] at hmem
      rcases hmem with hmem | hmem
      · exact hc hmem.symm
      · exact ih h hmem

/-- The inductive invariant of the ledger: unique primary keys in both
tables, the global reconciliation invariant (sum of balances = supply,
per symbol code), strictly positive balance rows, and supply bounded by
max-supply. -/
structure LedgerInv (st : State) : Prop where
  statNodup : (statKeys st.stats).Nodup
  balNodup : (balKeys st.accounts).Nodup
  sumEq : ∀ c, sumBal st.accounts c = supplyAmt st.stats c
  balPos : ∀ r ∈ st.accounts, 0 < r.balance.amount
  supLeMax : ∀ s ∈ st.stats, s.supply.amount ≤ s.max_supply.amount

theorem ledger_inv_init : LedgerInv initState := by
  refine ⟨?_, ?_, ?_, ?_, ?_⟩ <;> simp [initState, statKeys, balKeys, sumBal,
    supplyAmt, find_stat]

theorem transfer_inv {env : Env} {st : State} {frm toAcc : Nat}
    {quantity : Asset} {memo : String} {st' : State}
    (h : transfer env st frm toAcc quantity memo = .ok st') (hinv : LedgerInv st) :
    LedgerInv st' := by
  obtain ⟨_, _, _, _, _, _, hposq, _, ⟨acnts, hsub, hadd⟩, hstats, _, _⟩ :=
    transfer_ok h
  refine ⟨?_, ?_, ?_, ?_, ?_⟩
  · rw [hstats]; exact hinv.statNodup
  · exact add_balance_nodup hadd (sub_balance_nodup hsub hinv.balNodup)
  · intro c
    rw [add_balance_sum hadd c, sub_balance_sum hsub c, hinv.sumEq c, hstats]
    ring
  · exact add_balance_pos hadd hposq (sub_balance_pos hsub hinv.balPos)
  · rw [hstats]; exact hinv.supLeMax

theorem create_inv {env : Env} {st : State} {issuer : Nat}
    {maximum_supply : Asset} {st' : State}
    (h : create env st issuer maximum_supply = .ok st') (hinv : LedgerInv st) :
    LedgerInv st' := by
  obtain ⟨hnone, hpos, hst'⟩ := create_ok h
  subst hst'
  refine ⟨?_, hinv.balNodup, ?_, hinv.balPos, ?_⟩
  · simp only [statKeys, List.map_append, List.map_cons, List.map_nil]
    exact nodup_append_single hinv.statNodup (find_stat_none_not_mem hnone)
  · intro c
    simp only [sumBal, supplyAmt]
    by_cases hc : maximum_supply.sym.code = c
    · subst hc
      rw [find_stat_append_none _ hnone, if_pos rfl]
      have := hinv.sumEq maximum_supply.sym.code
      simp only [supplyAmt, hnone] at this
      exact this
    · have := hinv.sumEq c
      simp only [supplyAmt] at this
      cases hfc : find_stat st.stats c with
      | some s =>
        rw [find_stat_append_some _ hfc]
        rw [hfc] at this
        exact this
      | none =>
        rw [find_stat_append_none _ hfc, if_neg hc]
        rw [hfc] at this
        exact this
  · intro s hs
    rcases List.mem_append.mp hs with hs | hs
    · exact hinv.supLeMax s hs
    · simp at hs
      subst hs
      simp only
      omega

theorem burn_inv {env : Env} {st : State} {quantity : Asset} {memo : String}
    {st' : State} (h : burn env st quantity memo = .ok st') (hinv : LedgerInv st) :
    LedgerInv st' := by
  obtain ⟨stt, supply', max', acnts, hstt, _, hposq, _, hle, hsubq, hsubm,
    hsub, hst'⟩ := burn_ok h
  obtain ⟨hsamt, hssym, _⟩ := asset_sub_ok hsubq
  obtain ⟨hmamt, hmsym, _⟩ := asset_sub_ok hsubm
  have hcode : stt.supply.sym.code = quantity.sym.code := (find_stat_mem hstt).2
  have hnewcode : (⟨supply', max', stt.issuer⟩ : StatRow).supply.sym.code =
      quantity.sym.code := by
    show supply'.sym.code = quantity.sym.code
    rw [hssym, hcode]
  subst hst'
  refine ⟨?_, ?_, ?_, ?_, ?_⟩
  · simp only
    rw [replace_stat_keys hnewcode]
    exact hinv.statNodup
  · exact sub_balance_nodup hsub hinv.balNodup
  · intro c
    simp only
    rw [sub_balance_sum hsub c]
    by_cases hc : quantity.sym.code = c
    · subst hc
      rw [if_pos rfl, hinv.sumEq quantity.sym.code]
      simp only [supplyAmt, hstt, replace_stat_find_self hstt hnewcode]
      omega
    · rw [if_neg hc, hinv.sumEq c]
      simp only [supplyAmt, replace_stat_find_other hnewcode (fun he => hc he.symm)]
      ring
  · exact sub_balance_pos hsub hinv.balPos
  · intro s hs
    simp only at hs
    rcases replace_stat_mem hs with hs | hs
    · subst hs
      simp only
      have := hinv.supLeMax stt (find_stat_mem hstt).1
      omega
    · exact hinv.supLeMax s hs

theorem issue_inv {env : Env} {st : State} {toAcc : Nat} {quantity : Asset}
    {memo : String} {st' : State}
    (h : issue env st toAcc quantity memo = .ok st') (hinv : LedgerInv st) :
    LedgerInv st' := by
  obtain ⟨stt, supply', over, acnts, hstt, _, hposq, _, haddq, hgt, hadd,
    hrest⟩ := issue_ok h
  obtain ⟨hsamt, hssym, _⟩ := asset_add_ok haddq
  obtain ⟨hgsym, hover⟩ := asset_gt_ok hgt
  have hcode : stt.supply.sym.code = quantity.sym.code := (find_stat_mem hstt).2
  have hnewcode : (⟨supply', if over then supply' else stt.max_supply,
      stt.issuer⟩ : StatRow).supply.sym.code = quantity.sym.code := by
    show supply'.sym.code = quantity.sym.code
    rw [hssym, hcode]
  have hinv₁ : LedgerInv { st with
      stats := replace_stat st.stats quantity.sym.code
        ⟨supply', if over then supply' else stt.max_supply, stt.issuer⟩,
      accounts := acnts } := by
    refine ⟨?_, ?_, ?_, ?_, ?_⟩
    · simp only
      rw [replace_stat_keys hnewcode]
      exact hinv.statNodup
    · exact add_balance_nodup hadd hinv.balNodup
    · intro c
      simp only
      rw [add_balance_sum hadd c]
      by_cases hc : quantity.sym.code = c
      · subst hc
        rw [if_pos rfl, hinv.sumEq quantity.sym.code]
        simp only [supplyAmt, hstt, replace_stat_find_self hstt hnewcode]
        omega
      · rw [if_neg hc, hinv.sumEq c]
        simp only [supplyAmt,
          replace_stat_find_other hnewcode (fun he => hc he.symm)]
        ring
    · exact add_balance_pos hadd hposq hinv.balPos
    · intro s hs
      simp only at hs
      rcases replace_stat_mem hs with hs | hs
      · subst hs
        simp only
        by_cases ho : over = true
        · rw [if_pos ho]
        · rw [if_neg ho]
          have hnlt : ¬ stt.max_supply.amount < supply'.amount := by
            intro hlt
            rw [hover] at ho
            simp [hlt] at ho
          omega
      · exact hinv.supLeMax s hs
  rcases hrest with ⟨_, hst'⟩ | ⟨_, htr⟩
  · exact hst' ▸ hinv₁
  · exact transfer_inv htr hinv₁

theorem reachable_inv {self : Nat} {st : State} (h : Reachable self st) :
    LedgerInv st := by
  induction h with
  | init => exact ledger_inv_init
  | step_create _ _ _ _ _ hok ih => exact create_inv hok ih
  | step_issue _ _ _ _ _ _ hok ih => exact issue_inv hok ih
  | step_transfer _ _ _ _ _ _ _ hok ih => exact transfer_inv hok ih
  | step_burn _ _ _ _ _ hok ih => exact burn_inv hok ih
  | step_pause _ _ _ hok ih =>
    obtain ⟨ha, hs, hb⟩ := pause_ok hok
    exact ⟨hs ▸ ih.statNodup, ha ▸ ih.balNodup,
      fun c => by rw [ha, hs]; exact ih.sumEq c,
      fun r hr => ih.balPos r (ha ▸ hr), fun s hs' => ih.supLeMax s (hs ▸ hs')⟩
  | step_unpause _ _ _ hok ih =>
    obtain hst' := unpause_ok hok
    subst hst'
    exact ⟨ih.statNodup, ih.balNodup, ih.sumEq, ih.balPos, ih.supLeMax⟩
  | step_blacklist _ _ _ _ _ hok ih =>
    obtain ⟨ha, hs, hb⟩ := blacklist_ok hok
    exact ⟨hs ▸ ih.statNodup, ha ▸ ih.balNodup,
      fun c => by rw [ha, hs]; exact ih.sumEq c,
      fun r hr => ih.balPos r (ha ▸ hr), fun s hs' => ih.supLeMax s (hs ▸ hs')⟩
  | step_unblacklist _ _ _ _ hok ih =>
    obtain ⟨ha, hs, hb⟩ := unblacklist_ok hok
    exact ⟨hs ▸ ih.statNodup, ha ▸ ih.balNodup,
      fun c => by rw [ha, hs]; exact ih.sumEq c,
      fun r hr => ih.balPos r (ha ▸ hr), fun s hs' => ih.supLeMax s (hs ▸ hs')⟩

/-! ### The pause gate -/

theorem find_pause_modify {l : List PauseRow} {pr : PauseRow}
    (h : find_pause l = some pr) :
    find_pause (modify_pause l) = some ⟨1, true⟩ := by
  induction l with
  | nil => simp [find_pause] at h
  | cons hd rest ih =>
    simp only [find_pause, modify_pause] at h ⊢
    split at h
    · rename_i h1
      rw [if_pos h1]
      simp [find_pause, h1]
    · rename_i h1
      rw [if_neg h1]
      simp only [find_pause, if_neg h1]
      exact ih h

theorem find_pause_append {l : List PauseRow}
    (h : find_pause l = none) :
    find_pause (l ++ [⟨1, true⟩]) = some ⟨1, true⟩ := by
  induction l with
  | nil => simp [find_pause]
  | cons hd rest ih =>
    simp only [find_pause] at h ⊢
    split at h
    · simp at h
    · rename_i h1
      simp only [List.cons_append, find_pause, if_neg h1]
      exact ih h

theorem pause_is_paused {env : Env} {st st' : State}
    (h : pause env st = .ok st') : is_paused st' = false := by
  unfold pause at h
  split at h
  case isFalse => simp at h
  case isTrue =>
  split at h
  case h_1 pr hpr =>
    cases h
    simp [is_paused, find_pause_modify hpr]
  case h_2 hpr =>
    cases h
    simp [is_paused, find_pause_append hpr]

theorem transfer_of_paused {st : State} (hp : is_paused st = false)
    (env : Env) (frm toAcc : Nat) (q : Asset) (m : String) :
    transfer env st frm toAcc q m = .error "contract is paused." := by
  unfold transfer
  rw [if_neg (by simp [hp])]

/-! ### Which state components each action reads -/

theorem burn_gates_indep (env : Env) (st : State) (q : Asset) (m : String)
    (p : List PauseRow) (bl : List Nat) :
    burn env (setGates st p bl) q m =
      (burn env st q m).map (fun s => setGates s p bl) := by
  unfold burn setGates
  simp only
  repeat' split
  all_goals rfl

theorem create_gates_indep (env : Env) (st : State) (issuer : Nat) (maxs : Asset)
    (p : List PauseRow) (bl : List Nat) :
    create env (setGates st p bl) issuer maxs =
      (create env st issuer maxs).map (fun s => setGates s p bl) := by
  unfold create setGates
  simp only
  repeat' split
  all_goals rfl

theorem issue_pause_indep_to_issuer (env : Env) (st : State) (toAcc : Nat)
    (q : Asset) (m : String) (p : List PauseRow)
    (hto : ∀ stt, find_stat st.stats q.sym.code = some stt → toAcc = stt.issuer) :
    issue env (setPause st p) toAcc q m =
      (issue env st toAcc q m).map (fun s => setPause s p) := by
  unfold issue setPause
  simp only
  split
  case isFalse => rfl
  case isTrue =>
  split
  case isFalse => rfl
  case isTrue =>
  split
  case h_1 hstt => rfl
  case h_2 stt hstt =>
  have h2 := hto stt hstt
  repeat' split
  all_goals first | rfl | (rename_i hne; exact absurd h2 hne)

/-! ### Unfolding `burn` down to its balance debit -/

theorem max_amount_pos : (0 : Int) < max_amount := by decide

theorem burn_to_sub {env : Env} {st : State} {q : Asset} {m : String}
    {stt : StatRow}
    (hstt : find_stat st.stats q.sym.code = some stt)
    (hsymv : sym_is_valid q.sym = true) (hm : m.length ≤ 256)
    (hauth : stt.issuer ∈ env.auths) (hvalid : asset_is_valid q = true)
    (hpos : 0 < q.amount) (hsym : q.sym = stt.supply.sym)
    (hle : q.amount ≤ stt.supply.amount)
    (hms : stt.max_supply.sym = stt.supply.sym)
    (hsm : stt.supply.amount ≤ stt.max_supply.amount)
    (hmb : stt.max_supply.amount ≤ max_amount) :
    burn env st q m =
      match sub_balance st.accounts stt.issuer q with
      | .error e => .error e
      | .ok acnts => .ok { st with
          stats := replace_stat st.stats q.sym.code
            ⟨⟨stt.supply.amount - q.amount, stt.supply.sym⟩,
             ⟨stt.max_supply.amount - q.amount, stt.max_supply.sym⟩,
             stt.issuer⟩,
          accounts := acnts } := by
  have h0 : (0 : Int) < max_amount := max_amount_pos
  unfold burn
  rw [if_pos hsymv, if_pos hm]
  simp only [hstt]
  rw [if_pos hauth, if_pos hvalid, if_pos hpos, if_pos hsym, if_pos hle]
  rw [asset_sub_ok_of_bounds hsym.symm (by omega) (by omega)]
  simp only
  rw [asset_sub_ok_of_bounds (hms.trans hsym.symm) (by omega) (by omega)]

/-! ### Reachability of the concrete fixture states -/

theorem reachA : Reachable 1 stA :=
  Reachable.step_create [1] [1, 2, 3] 2 (qtyABC 1000) Reachable.init rfl

theorem reachB : Reachable 1 stB :=
  Reachable.step_issue [2] [1, 2, 3] 2 (qtyABC 100) "" reachA rfl

/-! ## The claims -/

/-- C1: for every token symbol, after every committed ledger operation
(create, issue, transfer, burn — and also the administrative actions),
the sum of the balances of all Balance Rows for that symbol code equals
that symbol's supply field in the Supply Registry (zero when no
descriptor exists). -/
theorem sum_balances_eq_supply {self : Nat} {st : State}
    (h : Reachable self st) (c : Nat) :
    sumBal st.accounts c = supplyAmt st.stats c :=
  (reachable_inv h).sumEq c

theorem sum_balances_eq_supply_witness :
    sumBal stB.accounts 4407873 = supplyAmt stB.stats 4407873 :=
  sum_balances_eq_supply reachB 4407873

/-- C2: in every reachable state no Balance Row has `balance ≤ 0`, and a
debit (`sub_balance`) whose amount exactly equals the row's balance
succeeds and deletes the row (no row with that key remains). -/
theorem balance_rows_strictly_positive {self : Nat} {st : State}
    (h : Reachable self st) :
    (∀ r ∈ st.accounts, 0 < r.balance.amount) ∧
    (∀ (o : Nat) (v : Asset) (r : BalRow),
      findBal st.accounts o v.sym.code = some r →
      r.balance.amount = v.amount →
      ∃ l', sub_balance st.accounts o v = .ok l' ∧
        findBal l' o v.sym.code = none) :=
  ⟨(reachable_inv h).balPos,
    fun _ _ _ hf he => sub_balance_delete (reachable_inv h).balNodup hf he⟩

theorem balance_rows_strictly_positive_witness :
    0 < (⟨2, qtyABC 100⟩ : BalRow).balance.amount ∧
    ∃ l', sub_balance stB.accounts 2 (qtyABC 100) = .ok l' ∧
      findBal l' 2 (qtyABC 100).sym.code = none :=
  ⟨(balance_rows_strictly_positive reachB).1 ⟨2, qtyABC 100⟩ (by decide),
    (balance_rows_strictly_positive reachB).2 2 (qtyABC 100) ⟨2, qtyABC 100⟩
      rfl rfl⟩

/-- C3: `supply ≤ max_supply` holds for every Token Descriptor in every
reachable state; moreover `create` initialises the descriptor with
supply 0 and a positive max-supply, `issue` adds the quantity to the
supply and raises `max_supply` to match exactly when the increased
supply would exceed it, and `burn` decreases supply and max-supply by
the same amount. -/
theorem supply_le_max_supply :
    (∀ (self : Nat) (st : State), Reachable self st →
      ∀ s ∈ st.stats, s.supply.amount ≤ s.max_supply.amount) ∧
    (∀ env st issuer maxs st', create env st issuer maxs = .ok st' →
      0 < maxs.amount ∧
      st'.stats = st.stats ++ [⟨⟨0, maxs.sym⟩, maxs, issuer⟩]) ∧
    (∀ env st toAcc q memo st', issue env st toAcc q memo = .ok st' →
      ∃ stt supply', find_stat st.stats q.sym.code = some stt ∧
        supply'.amount = stt.supply.amount + q.amount ∧
        find_stat st'.stats q.sym.code = some
          ⟨supply', if stt.max_supply.amount < supply'.amount then supply'
            else stt.max_supply, stt.issuer⟩) ∧
    (∀ env st q memo st', burn env st q memo = .ok st' →
      ∃ stt, find_stat st.stats q.sym.code = some stt ∧
        find_stat st'.stats q.sym.code = some
          ⟨⟨stt.supply.amount - q.amount, stt.supply.sym⟩,
            ⟨stt.max_supply.amount - q.amount, stt.max_supply.sym⟩,
            stt.issuer⟩) := by
  refine ⟨fun _ _ h => (reachable_inv h).supLeMax, ?_, ?_, ?_⟩
  · intro env st issuer maxs st' h
    obtain ⟨_, hpos, hst'⟩ := create_ok h
    exact ⟨hpos, by rw [hst']⟩
  · intro env st toAcc q memo st' h
    obtain ⟨stt, supply', over, acnts, hstt, _, _, _, haddq, hgt, hadd, hrest⟩ :=
      issue_ok h
    obtain ⟨hsamt, hssym, _⟩ := asset_add_ok haddq
    obtain ⟨_, hover⟩ := asset_gt_ok hgt
    have hnewcode : (⟨supply', if over then supply' else stt.max_supply,
        stt.issuer⟩ : StatRow).supply.sym.code = q.sym.code := by
      show supply'.sym.code = q.sym.code
      rw [hssym, (find_stat_mem hstt).2]
    refine ⟨stt, supply', hstt, hsamt, ?_⟩
    have hfind := replace_stat_find_self hstt hnewcode
    have hstats' : st'.stats = replace_stat st.stats q.sym.code
        ⟨supply', if over then supply' else stt.max_supply, stt.issuer⟩ := by
      rcases hrest with ⟨_, hst'⟩ | ⟨_, htr⟩
      · rw [hst']
      · exact (transfer_ok htr).2.2.2.2.2.2.2.2.2.1
    rw [hstats', hfind, hover]
    simp only [decide_eq_true_eq]
  · intro env st q memo st' h
    obtain ⟨stt, supply', max', acnts, hstt, _, _, _, _, hsubq, hsubm, hsub,
      hst'⟩ := burn_ok h
    obtain ⟨hsamt, hssym, _⟩ := asset_sub_ok hsubq
    obtain ⟨hmamt, hmsym, _⟩ := asset_sub_ok hsubm
    have hs' : supply' = ⟨stt.supply.amount - q.amount, stt.supply.sym⟩ := by
      cases supply'
      simp only at hsamt hssym
      rw [hsamt, hssym]
    have hm' : max' = ⟨stt.max_supply.amount - q.amount, stt.max_supply.sym⟩ := by
      cases max'
      simp only at hmamt hmsym
      rw [hmamt, hmsym]
    have hnewcode : (⟨supply', max', stt.issuer⟩ : StatRow).supply.sym.code =
        q.sym.code := by
      show supply'.sym.code = q.sym.code
      rw [hssym, (find_stat_mem hstt).2]
    refine ⟨stt, hstt, ?_⟩
    rw [hst']
    simp only
    rw [replace_stat_find_self hstt hnewcode, hs', hm']

theorem supply_le_max_supply_witness :
    (⟨⟨100, symABC⟩, qtyABC 1000, 2⟩ : StatRow).supply.amount ≤
      (⟨⟨100, symABC⟩, qtyABC 1000, 2⟩ : StatRow).max_supply.amount :=
  supply_le_max_supply.1 1 stB reachB ⟨⟨100, symABC⟩, qtyABC 1000, 2⟩ (by decide)

/-- C4 (counterexample): the balance read query is NOT total — on an
account with no Balance Row for the symbol it aborts with "unable to
find key" instead of returning zero (account 3 holds no ABC in `stB`). -/
theorem get_balance_absent_fails :
    get_balance stB.accounts 3 4407873 = .error "unable to find key" := rfl

/-- C4 (amended): `get_balance` returns the row's balance when a Balance
Row exists and aborts with "unable to find key" when none exists; it
never returns zero for a missing row. -/
theorem get_balance_amended (acnts : List BalRow) (o c : Nat) :
    (∀ r, findBal acnts o c = some r → get_balance acnts o c = .ok r.balance) ∧
    (findBal acnts o c = none →
      get_balance acnts o c = .error "unable to find key") := by
  constructor
  · intro r hr
    unfold get_balance
    rw [hr]
  · intro hr
    unfold get_balance
    rw [hr]

theorem get_balance_amended_witness :
    get_balance stB.accounts 2 4407873 = .ok (qtyABC 100) ∧
    get_balance stB.accounts 3 4407873 = .error "unable to find key" :=
  ⟨(get_balance_amended stB.accounts 2 4407873).1 ⟨2, qtyABC 100⟩ rfl,
    (get_balance_amended stB.accounts 3 4407873).2 rfl⟩

/-- C5 (counterexample): `issue` is NOT unaffected by the pause flag for
all arguments — when the recipient is not the issuer, the inline
`transfer` that `issue` sends runs in the same transaction and hits the
pause gate: the same `issue(3, 5 ABC)` succeeds on the unpaused ledger
`stB` but aborts with "contract is paused." on the paused ledger `stP`. -/
theorem issue_affected_by_pause :
    issue envIssuer stP 3 (qtyABC 5) "" = .error "contract is paused." ∧
    issue envIssuer stB 3 (qtyABC 5) "" = .ok stI3 := ⟨rfl, rfl⟩

/-- C5 (amended): after a successful `pause()` every `transfer` fails
with "contract is paused."; `burn` and `create` read neither the pause
table nor the blacklist at all, and `issue` ignores the pause table
whenever its recipient is the token's issuer — only the inline transfer
sent for a third-party recipient is pause-gated. -/
theorem pause_gates_amended :
    (∀ env st st', pause env st = .ok st' →
      ∀ (env' : Env) (frm toAcc : Nat) (q : Asset) (memo : String),
        transfer env' st' frm toAcc q memo = .error "contract is paused.") ∧
    (∀ env st q m p bl, burn env (setGates st p bl) q m =
      (burn env st q m).map (fun s => setGates s p bl)) ∧
    (∀ env st issuer maxs p bl, create env (setGates st p bl) issuer maxs =
      (create env st issuer maxs).map (fun s => setGates s p bl)) ∧
    (∀ env st toAcc q m p,
      (∀ stt, find_stat st.stats q.sym.code = some stt → toAcc = stt.issuer) →
      issue env (setPause st p) toAcc q m =
        (issue env st toAcc q m).map (fun s => setPause s p)) :=
  ⟨fun _ _ _ h env' frm toAcc q memo =>
      transfer_of_paused (pause_is_paused h) env' frm toAcc q memo,
    burn_gates_indep, create_gates_indep, issue_pause_indep_to_issuer⟩

theorem pause_gates_amended_witness :
    transfer envIssuer stP 2 3 (qtyABC 40) "" = .error "contract is paused." :=
  pause_gates_amended.1 envSelf stB stP rfl envIssuer 2 3 (qtyABC 40) ""

/-- C6 (counterexample): an unauthorized caller is NOT rejected with the
authorization failure first — on the paused ledger `stP`, a transfer
with no authorization at all fails with "contract is paused.", so the
pause gate is observed before the authorization check. -/
theorem transfer_pause_error_before_auth :
    2 ∉ envNoAuth.auths ∧
    transfer envNoAuth stP 2 3 (qtyABC 40) "" = .error "contract is paused." :=
  ⟨by decide, rfl⟩

/-- C6 (amended): `transfer` runs its checks in the order pause gate,
blacklist of the sender, blacklist of the recipient, self-transfer,
authorization: each failure below fires exactly when all earlier checks
pass (recall `is_paused` returns `true` when NO pause row exists, so
`is_paused st = true` means the gate is open), and the authorization
failure is observable only after the pause, blacklist and self-transfer
checks have all passed. -/
theorem transfer_check_order_amended (env : Env) (st : State)
    (frm toAcc : Nat) (q : Asset) (memo : String) :
    (is_paused st = false →
      transfer env st frm toAcc q memo = .error "contract is paused.") ∧
    (is_paused st = true → frm ∈ st.blacklist →
      transfer env st frm toAcc q memo = .error "account blacklisted(from)") ∧
    (is_paused st = true → frm ∉ st.blacklist → toAcc ∈ st.blacklist →
      transfer env st frm toAcc q memo = .error "account blacklisted(to)") ∧
    (is_paused st = true → frm ∉ st.blacklist → toAcc ∉ st.blacklist →
      frm = toAcc →
      transfer env st frm toAcc q memo = .error "cannot transfer to self") ∧
    (is_paused st = true → frm ∉ st.blacklist → toAcc ∉ st.blacklist →
      frm ≠ toAcc → frm ∉ env.auths →
      transfer env st frm toAcc q memo = .error "missing required authority") := by
  refine ⟨fun hp => transfer_of_paused hp env frm toAcc q memo, ?_, ?_, ?_, ?_⟩
  · intro hp hbf
    unfold transfer
    rw [if_pos hp, if_pos hbf]
  · intro hp hbf hbt
    unfold transfer
    rw [if_pos hp, if_neg hbf, if_pos hbt]
  · intro hp hbf hbt hself
    unfold transfer
    rw [if_pos hp, if_neg hbf, if_neg hbt, if_pos hself]
  · intro hp hbf hbt hself hauth
    unfold transfer
    rw [if_pos hp, if_neg hbf, if_neg hbt, if_neg hself, if_neg hauth]

theorem transfer_check_order_amended_witness :
    transfer envNoAuth stB 2 3 (qtyABC 40) "" = .error "missing required authority" :=
  (transfer_check_order_amended envNoAuth stB 2 3 (qtyABC 40) "").2.2.2.2
    rfl (by decide) (by decide) (by decide) (by decide)

/-- C7 (counterexample): the scenario is false when the recipient
already holds a balance — in `stC7` account 2 holds exactly 100 ABC and
account 3 already holds 60 ABC; the successful `transfer(2, 3, 40 ABC)`
leaves account 3 with 100 ABC, not 40. -/
theorem transfer_scenario_prior_balance :
    findBal stC7.accounts 2 4407873 = some ⟨2, qtyABC 100⟩ ∧
    transfer envIssuer stC7 2 3 (qtyABC 40) "" = .ok stC7' ∧
    findBal stC7'.accounts 3 4407873 = some ⟨3, qtyABC 100⟩ :=
  ⟨rfl, rfl, rfl⟩

/-- C7 (amended): for distinct accounts A and B where A holds exactly
100 of the symbol and B holds NO Balance Row for it, a successful
`transfer(A, B, 40)` leaves A with 60, gives B a row with 40, and leaves
the Supply Registry untouched. -/
theorem transfer_scenario_amended {env : Env} {st : State} {frm toAcc : Nat}
    {q : Asset} {memo : String} {st' : State} {r : BalRow}
    (h : transfer env st frm toAcc q memo = .ok st')
    (hA : findBal st.accounts frm q.sym.code = some r)
    (hA100 : r.balance.amount = 100) (hq : q.amount = 40)
    (hB : findBal st.accounts toAcc q.sym.code = none) :
    (∃ rA, findBal st'.accounts frm q.sym.code = some rA ∧
      rA.balance.amount = 60) ∧
    (∃ rB, findBal st'.accounts toAcc q.sym.code = some rB ∧
      rB.balance.amount = 40) ∧
    st'.stats = st.stats := by
  obtain ⟨_, _, _, hne, _, _, _, _, ⟨acnts, hsub, hadd⟩, hstats, _, _⟩ :=
    transfer_ok h
  have hmod := sub_balance_modify hsub hA (by omega)
  have hA' : findBal st'.accounts frm q.sym.code =
      some ⟨r.owner, ⟨r.balance.amount - q.amount, r.balance.sym⟩⟩ := by
    rw [add_balance_find_other hadd (fun hc => hne hc.1), hmod]
  have hBnone : findBal acnts toAcc q.sym.code = none := by
    rw [sub_balance_find_other hsub (fun hc => hne hc.1.symm), hB]
  have hB' := add_balance_find_absent hadd hBnone
  refine ⟨⟨_, hA', ?_⟩, ⟨_, hB', hq⟩, hstats⟩
  simp only
  omega

theorem transfer_scenario_amended_witness :
    (∃ rA, findBal stT.accounts 2 (qtyABC 40).sym.code = some rA ∧
      rA.balance.amount = 60) ∧
    (∃ rB, findBal stT.accounts 3 (qtyABC 40).sym.code = some rB ∧
      rB.balance.amount = 40) ∧
    stT.stats = stB.stats :=
  @transfer_scenario_amended envIssuer stB 2 3 (qtyABC 40) "" stT
    ⟨2, qtyABC 100⟩ rfl rfl rfl rfl rfl

/-- C8: calling `unpause` twice in succession from the paused state
`stP` succeeds both times (the second call is a no-op on the empty pause
table) — but the code's `is_paused()` evaluates to `true`, not `false`,
after each call, because it literally returns `pauset.find(1) ==
pauset.end()`, the opposite of what its own documentation ("check if the
contract is in paused state") says. -/
theorem unpause_twice_is_paused_true :
    unpause envSelf stP = .ok stB ∧ unpause envSelf stB = .ok stB ∧
      is_paused stB = true := ⟨rfl, rfl, rfl⟩

/-- C9: `burn` is not gated by the pause flag or the blacklist: its
result is entirely independent of the pause table and blacklist
contents, and under the burn preconditions (token exists, issuer
authorised, valid positive quantity within supply, matching symbols,
amounts within the asset range, and an issuer Balance Row covering the
amount) it succeeds no matter what pause rows or blacklist entries are
installed — including a pause row and the issuer on the blacklist. -/
theorem burn_bypasses_pause_blacklist :
    (∀ env st q m p bl, burn env (setGates st p bl) q m =
      (burn env st q m).map (fun s => setGates s p bl)) ∧
    (∀ (env : Env) (st : State) (q : Asset) (m : String) (p : List PauseRow)
      (bl : List Nat) (stt : StatRow) (r : BalRow),
      find_stat st.stats q.sym.code = some stt →
      sym_is_valid q.sym = true → m.length ≤ 256 →
      stt.issuer ∈ env.auths → asset_is_valid q = true →
      0 < q.amount → q.sym = stt.supply.sym →
      q.amount ≤ stt.supply.amount →
      stt.max_supply.sym = stt.supply.sym →
      stt.supply.amount ≤ stt.max_supply.amount →
      stt.max_supply.amount ≤ max_amount →
      findBal st.accounts stt.issuer q.sym.code = some r →
      q.amount ≤ r.balance.amount → r.balance.sym = q.sym →
      r.balance.amount ≤ max_amount →
      ∃ st', burn env (setGates st p bl) q m = .ok st') := by
  refine ⟨burn_gates_indep, ?_⟩
  intro env st q m p bl stt r hstt hsymv hm hauth hvalid hpos hsym hle hms
    hsm hmb hfind hge hsymr hbound
  rcases sub_balance_ok_of_cover hfind hge hsymr hbound (le_of_lt hpos) with
    ⟨acnts, hacnts⟩
  refine ⟨setGates { st with
      stats := replace_stat st.stats q.sym.code
        ⟨⟨stt.supply.amount - q.amount, stt.supply.sym⟩,
          ⟨stt.max_supply.amount - q.amount, stt.max_supply.sym⟩, stt.issuer⟩,
      accounts := acnts } p bl, ?_⟩
  rw [burn_gates_indep,
    burn_to_sub hstt hsymv hm hauth hvalid hpos hsym hle hms hsm hmb, hacnts]
  rfl

theorem burn_bypasses_pause_blacklist_witness :
    ∃ st', burn envIssuer (setGates stB [⟨1, true⟩] [2]) (qtyABC 30) "" =
      .ok st' :=
  burn_bypasses_pause_blacklist.2 envIssuer stB (qtyABC 30) "" [⟨1, true⟩] [2]
    ⟨⟨100, symABC⟩, qtyABC 1000, 2⟩ ⟨2, qtyABC 100⟩ rfl rfl (by decide)
    (by decide) rfl (by decide) rfl (by decide) rfl (by decide) (by decide)
    rfl (by decide) rfl (by decide)

/-- C10: under the other burn preconditions (token exists, issuer
authorised, valid positive quantity with `amount ≤ supply`, matching
symbols, amounts in range), `burn` aborts with "no balance object found"
when the issuer has no Balance Row for the symbol and with "overdrawn
balance" when the issuer's row holds less than the amount — in either
case the whole transaction is an `Except.error`, so the supply decrease
is not committed. -/
theorem burn_requires_issuer_balance {env : Env} {st : State} {q : Asset}
    {m : String} {stt : StatRow}
    (hstt : find_stat st.stats q.sym.code = some stt)
    (hsymv : sym_is_valid q.sym = true) (hm : m.length ≤ 256)
    (hauth : stt.issuer ∈ env.auths) (hvalid : asset_is_valid q = true)
    (hpos : 0 < q.amount) (hsym : q.sym = stt.supply.sym)
    (hle : q.amount ≤ stt.supply.amount)
    (hms : stt.max_supply.sym = stt.supply.sym)
    (hsm : stt.supply.amount ≤ stt.max_supply.amount)
    (hmb : stt.max_supply.amount ≤ max_amount) :
    (findBal st.accounts stt.issuer q.sym.code = none →
      burn env st q m = .error "no balance object found") ∧
    (∀ r, findBal st.accounts stt.issuer q.sym.code = some r →
      r.balance.amount < q.amount →
      burn env st q m = .error "overdrawn balance") := by
  constructor
  · intro habs
    rw [burn_to_sub hstt hsymv hm hauth hvalid hpos hsym hle hms hsm hmb,
      sub_balance_absent habs]
  · intro r hfind hlt
    rw [burn_to_sub hstt hsymv hm hauth hvalid hpos hsym hle hms hsm hmb,
      sub_balance_overdrawn hfind hlt]

theorem burn_requires_issuer_balance_witness :
    burn envIssuer stNB (qtyABC 30) "" = .error "no balance object found" ∧
    burn envIssuer stC7 (qtyABC 150) "" = .error "overdrawn balance" :=
  ⟨(@burn_requires_issuer_balance envIssuer stNB (qtyABC 30) ""
      ⟨⟨100, symABC⟩, qtyABC 1000, 2⟩ rfl rfl (by decide) (by decide) rfl
      (by decide) rfl (by decide) rfl (by decide) (by decide)).1 rfl,
    (@burn_requires_issuer_balance envIssuer stC7 (qtyABC 150) ""
      ⟨⟨160, symABC⟩, qtyABC 1000, 2⟩ rfl rfl (by decide) (by decide) rfl
      (by decide) rfl (by decide) rfl (by decide) (by decide)).2
      ⟨2, qtyABC 100⟩ rfl (by decide)⟩
